import Mathlib

/-!
Verification of the QEMU-monitor-protocol client in corten_scripts/qmp.py.

The file embeds the data model and the operations of the class
QEMUMonitorProtocol (and QMPQuery.__get_address) as pure Lean functions:

- JSON documents are the mutual inductives JValue / JArr / JObj; a decoded
  line of input (a Python dict) is a JObj, an insertion-ordered
  association list, mirroring dict insertion order.
- The byte stream read from the socket is abstracted as a list of
  SockData items: full decoded lines, an end-of-stream marker (readline
  returns an empty string), and a no-data-yet marker (a non-blocking
  readline raises socket.error EAGAIN; a blocking readline waits).
- Python exceptions escaping a method are the QErr outcomes; errno
  subscripting (err[0]) is modelled with the errno carried in the
  SendOutcome / read outcome, following the code's evident intent.
- json.dumps (default options: ensure_ascii, separators a comma plus
  space and a colon plus space) is dumpsVal; json.loads is loads,
  restricted to integer-valued JSON numbers, since the protocol messages
  in scope carry no floats.  Python's json accepts lone UTF-16
  surrogates in a string literal; Lean characters cannot represent
  those, so the parser rejects them -- the encoder never emits them.
-/

set_option maxHeartbeats 1000000

namespace QMP

/-! Data model: JSON values as mutual inductives, so that mutual
structural induction is available. -/

mutual

inductive JValue where
  | jnull : JValue
  | jbool : Bool → JValue
  | jnum : Int → JValue
  | jstr : String → JValue
  | jarr : JArr → JValue
  | jobj : JObj → JValue
deriving DecidableEq

inductive JArr where
  | nil : JArr
  | cons : JValue → JArr → JArr
deriving DecidableEq

inductive JObj where
  | nil : JObj
  | cons : String → JValue → JObj → JObj
deriving DecidableEq

end

/-- Lookup of a key in a decoded message, as Python dict subscripting
resp[key]. -/
def JObj.lookup : JObj → String → Option JValue
  | .nil, _ => none
  | .cons k v tl, key => if k = key then some v else JObj.lookup tl key

/-- Python membership test, as in the source's checks of the form
key in resp. -/
def JObj.hasKey (o : JObj) (key : String) : Bool :=
  (o.lookup key).isSome

/-! Serialization: json.dumps with its default options.  Strings are
escaped per the ensure_ascii encoder: quote and backslash get a
backslash escape, the five controls 8, 9, 10, 12, 13 get their
shorthand escapes, other chars outside printable ASCII 0x20..0x7e get
a lowercase 4-hex-digit escape, with a UTF-16 surrogate pair for code
points above 0xffff. -/

def hexDig (n : Nat) : Char :=
  if n < 10 then Char.ofNat (48 + n) else Char.ofNat (87 + n)

def hexDigits4 (n : Nat) : List Char :=
  [hexDig (n / 4096 % 16), hexDig (n / 256 % 16), hexDig (n / 16 % 16), hexDig (n % 16)]

def hex4 (n : Nat) : List Char := '\\' :: 'u' :: hexDigits4 n

def escapeChar (c : Char) : List Char :=
  if c = '"' then ['\\', '"']
  else if c = '\\' then ['\\', '\\']
  else if c.toNat = 8 then ['\\', 'b']
  else if c.toNat = 9 then ['\\', 't']
  else if c.toNat = 10 then ['\\', 'n']
  else if c.toNat = 12 then ['\\', 'f']
  else if c.toNat = 13 then ['\\', 'r']
  else if 32 ≤ c.toNat ∧ c.toNat ≤ 126 then [c]
  else if c.toNat < 65536 then hex4 c.toNat
  else hex4 (55296 + (c.toNat - 65536) / 1024) ++ hex4 (56320 + (c.toNat - 65536) % 1024)

def escapeList : List Char → List Char
  | [] => []
  | c :: cs => escapeChar c ++ escapeList cs

/-- Decimal digits of a natural number, most significant first. -/
def natDigits (n : Nat) : List Nat :=
  if _h : n < 10 then [n]
  else natDigits (n / 10) ++ [n % 10]
termination_by n
decreasing_by exact Nat.div_lt_self (by omega) (by omega)

def digitChar (d : Nat) : Char := Char.ofNat (48 + d)

def natRepr (n : Nat) : List Char := (natDigits n).map digitChar

/-- Python repr of an int, as json.dumps emits it. -/
def intRepr (n : Int) : List Char :=
  if n < 0 then '-' :: natRepr n.natAbs else natRepr n.toNat

mutual

def dumpsVal : JValue → List Char
  | .jnull => ['n', 'u', 'l', 'l']
  | .jbool true => ['t', 'r', 'u', 'e']
  | .jbool false => ['f', 'a', 'l', 's', 'e']
  | .jnum n => intRepr n
  | .jstr s => '"' :: (escapeList s.data ++ ['"'])
  | .jarr .nil => ['[', ']']
  | .jarr (.cons v tl) => '[' :: ((dumpsVal v ++ dumpsElems tl) ++ [']'])
  | .jobj .nil => [Char.ofNat 123, Char.ofNat 125]
  | .jobj (.cons k v tl) =>
      Char.ofNat 123 ::
        ((('"' :: (escapeList k.data ++ ('"' :: ':' :: ' ' :: dumpsVal v))) ++ dumpsMembers tl)
          ++ [Char.ofNat 125])

def dumpsElems : JArr → List Char
  | .nil => []
  | .cons v tl => ',' :: ' ' :: (dumpsVal v ++ dumpsElems tl)

def dumpsMembers : JObj → List Char
  | .nil => []
  | .cons k v tl =>
      ',' :: ' ' :: ('"' :: (escapeList k.data ++ ('"' :: ':' :: ' ' :: dumpsVal v)))
        ++ dumpsMembers tl

end

def dumps (v : JValue) : String := String.mk (dumpsVal v)

/-! Parsing: json.loads, a recursive-descent parser over the character
list, with a fuel argument bounding recursion depth (loads supplies
fuel linear in the input length, which dominates the depth any parse
can reach). -/

def isWs (c : Char) : Bool := c = ' ' || c = '\t' || c = '\n' || c = '\r'

def skipWs : List Char → List Char
  | [] => []
  | c :: cs => if isWs c then skipWs cs else c :: cs

def hexVal (c : Char) : Option Nat :=
  if 48 ≤ c.toNat ∧ c.toNat ≤ 57 then some (c.toNat - 48)
  else if 97 ≤ c.toNat ∧ c.toNat ≤ 102 then some (c.toNat - 87)
  else if 65 ≤ c.toNat ∧ c.toNat ≤ 70 then some (c.toNat - 55)
  else none

def escMap (e : Char) : Option Char :=
  if e = '"' then some '"'
  else if e = '\\' then some '\\'
  else if e = '/' then some '/'
  else if e = 'b' then some (Char.ofNat 8)
  else if e = 'f' then some (Char.ofNat 12)
  else if e = 'n' then some (Char.ofNat 10)
  else if e = 'r' then some (Char.ofNat 13)
  else if e = 't' then some (Char.ofNat 9)
  else none

/-- Decoding of one escape sequence, entered after the backslash: a
shorthand letter, or a 4-hex-digit escape, with a high surrogate
required to be followed by a second escape carrying the low half
(lone surrogates, which Python's json tolerates but Lean characters
cannot represent, are rejected). -/
def parseEscape : List Char → Option (Char × List Char)
  | [] => none
  | e :: cs1 =>
    if e = 'u' then
      match cs1 with
      | c1 :: c2 :: c3 :: c4 :: cs2 =>
        match hexVal c1, hexVal c2, hexVal c3, hexVal c4 with
        | some a1, some a2, some a3, some a4 =>
          if 55296 ≤ ((a1 * 16 + a2) * 16 + a3) * 16 + a4 ∧
              ((a1 * 16 + a2) * 16 + a3) * 16 + a4 ≤ 56319 then
            match cs2 with
            | b0 :: bu :: d1 :: d2 :: d3 :: d4 :: cs3 =>
              if b0 = '\\' ∧ bu = 'u' then
                match hexVal d1, hexVal d2, hexVal d3, hexVal d4 with
                | some e1, some e2, some e3, some e4 =>
                  if 56320 ≤ ((e1 * 16 + e2) * 16 + e3) * 16 + e4 ∧
                      ((e1 * 16 + e2) * 16 + e3) * 16 + e4 ≤ 57343 then
                    some (Char.ofNat
                      (65536 + ((((a1 * 16 + a2) * 16 + a3) * 16 + a4) - 55296) * 1024 +
                        ((((e1 * 16 + e2) * 16 + e3) * 16 + e4) - 56320)), cs3)
                  else none
                | _, _, _, _ => none
              else none
            | _ => none
          else if 56320 ≤ ((a1 * 16 + a2) * 16 + a3) * 16 + a4 ∧
              ((a1 * 16 + a2) * 16 + a3) * 16 + a4 ≤ 57343 then none
          else some (Char.ofNat (((a1 * 16 + a2) * 16 + a3) * 16 + a4), cs2)
        | _, _, _, _ => none
      | _ => none
    else
      match escMap e with
      | some d => some (d, cs1)
      | none => none

/-- Fueled body of a JSON string literal scanner; the fuel only bounds
the recursion and is never exhausted when it exceeds the input length,
since every step consumes at least one character. -/
def parseStrCharsF : Nat → List Char → Option (List Char × List Char)
  | 0, _ => none
  | fuel + 1, l =>
    match l with
    | [] => none
    | c :: cs =>
      if c = '"' then some ([], cs)
      else if c = '\\' then
        match parseEscape cs with
        | none => none
        | some (d, cs2) =>
          match parseStrCharsF fuel cs2 with
          | some (l2, rest) => some (d :: l2, rest)
          | none => none
      else if c.toNat < 32 then none
      else
        match parseStrCharsF fuel cs with
        | some (l2, rest) => some (c :: l2, rest)
        | none => none

/-- Body of a JSON string literal: the input starts right after the
opening quote; returns the decoded characters and the input after the
closing quote. -/
def parseStrChars (l : List Char) : Option (List Char × List Char) :=
  parseStrCharsF (l.length + 1) l

/-- Digit-accumulation loop of the number grammar. -/
def digitLoop : Nat → List Char → Nat × List Char
  | acc, [] => (acc, [])
  | acc, c :: cs =>
    if c.isDigit then digitLoop (acc * 10 + (c.toNat - 48)) cs else (acc, c :: cs)

/-- Unsigned part of a JSON number: a lone zero, or a nonzero leading
digit followed by more digits (the JSON grammar forbids leading
zeros). -/
def parsePosNat : List Char → Option (Nat × List Char)
  | [] => none
  | c :: cs =>
    if c = '0' then some (0, cs)
    else if c.isDigit then some (digitLoop (c.toNat - 48) cs)
    else none

mutual

def parseValue : Nat → List Char → Option (JValue × List Char)
  | 0, _ => none
  | fuel + 1, l =>
    match l with
    | [] => none
    | c :: cs =>
      if c = 'n' then
        match cs with
        | 'u' :: 'l' :: 'l' :: rest => some (.jnull, rest)
        | _ => none
      else if c = 't' then
        match cs with
        | 'r' :: 'u' :: 'e' :: rest => some (.jbool true, rest)
        | _ => none
      else if c = 'f' then
        match cs with
        | 'a' :: 'l' :: 's' :: 'e' :: rest => some (.jbool false, rest)
        | _ => none
      else if c = '"' then
        match parseStrChars cs with
        | some (chars, rest) => some (.jstr (String.mk chars), rest)
        | none => none
      else if c = '-' then
        match parsePosNat cs with
        | some (n, rest) => some (.jnum (-(n : Int)), rest)
        | none => none
      else if c.isDigit then
        match parsePosNat (c :: cs) with
        | some (n, rest) => some (.jnum (n : Int), rest)
        | none => none
      else if c = '[' then parseArr fuel (skipWs cs)
      else if c = Char.ofNat 123 then parseObjBody fuel (skipWs cs)
      else none

def parseArr : Nat → List Char → Option (JValue × List Char)
  | 0, _ => none
  | fuel + 1, l =>
    match l with
    | [] => none
    | c :: cs =>
      if c = ']' then some (.jarr .nil, cs)
      else
        match parseElemsRest fuel (c :: cs) with
        | some (a, rest) => some (.jarr a, rest)
        | none => none

def parseElemsRest : Nat → List Char → Option (JArr × List Char)
  | 0, _ => none
  | fuel + 1, l =>
    match parseValue fuel l with
    | none => none
    | some (v, r) =>
      match skipWs r with
      | ']' :: rest => some (.cons v .nil, rest)
      | ',' :: rest =>
        match parseElemsRest fuel (skipWs rest) with
        | some (tl, rest2) => some (.cons v tl, rest2)
        | none => none
      | _ => none

def parseObjBody : Nat → List Char → Option (JValue × List Char)
  | 0, _ => none
  | fuel + 1, l =>
    match l with
    | [] => none
    | c :: rest =>
      if c = Char.ofNat 125 then some (.jobj .nil, rest)
      else
        match parseMembersRest fuel (c :: rest) with
        | some (o, rest2) => some (.jobj o, rest2)
        | none => none

def parseMembersRest : Nat → List Char → Option (JObj × List Char)
  | 0, _ => none
  | fuel + 1, l =>
    match l with
    | '"' :: cs =>
      match parseStrChars cs with
      | some (kchars, r1) =>
        match skipWs r1 with
        | ':' :: r2 =>
          match parseValue fuel (skipWs r2) with
          | some (v, r3) =>
            match skipWs r3 with
            | [] => none
            | c2 :: rest =>
              if c2 = Char.ofNat 125 then some (.cons (String.mk kchars) v .nil, rest)
              else if c2 = ',' then
                match parseMembersRest fuel (skipWs rest) with
                | some (tl, rest2) => some (.cons (String.mk kchars) v tl, rest2)
                | none => none
              else none
          | none => none
        | _ => none
      | none => none
    | _ => none

end

/-- Model of json.loads: decode one document and require that only
whitespace remains.  The fuel bound is linear in the input length,
which dominates the number of recursive descents any parse can
perform, since every descent consumes input. -/
def loads (s : String) : Option JValue :=
  match parseValue (2 * s.data.length + 2) (skipWs s.data) with
  | some (v, rest) => if skipWs rest = [] then some v else none
  | none => none

/-! Fuel consumed by parseValue on the output of dumpsVal: an upper
bound used by the roundtrip proof. -/

mutual

def needV : JValue → Nat
  | .jarr a => 2 + needA a
  | .jobj o => 2 + needO o
  | _ => 1

def needA : JArr → Nat
  | .nil => 0
  | .cons v tl => 2 + needV v + needA tl

def needO : JObj → Nat
  | .nil => 0
  | .cons _ v tl => 2 + needV v + needO tl

end

/-- True when the list does not start with a decimal digit, so that a
number serialized before it cannot absorb its characters. -/
def noDigitHead : List Char → Bool
  | [] => true
  | c :: _ => !c.isDigit

/-- Serialized characters of an array between its brackets. -/
def dumpsArrBody : JArr → List Char
  | .nil => []
  | .cons v tl => dumpsVal v ++ dumpsElems tl

/-- Serialized characters of an object between its braces. -/
def dumpsObjBody : JObj → List Char
  | .nil => []
  | .cons k v tl =>
      ('"' :: (escapeList k.data ++ ('"' :: ':' :: ' ' :: dumpsVal v))) ++ dumpsMembers tl

/-! Session model.

A QEMUMonitorProtocol object holds the hidden event list self.__events
and the socket; the socket's incoming byte stream is abstracted as a
list of SockData items.  The serialized command lines passed to
sendall are recorded in the sent trace. -/

/-- One observable unit of the incoming stream: a full decoded line, the
end-of-stream condition (readline yields an empty string, forever), or
the no-data-yet condition (a non-blocking readline raises socket.error
EAGAIN; a blocking readline waits for the data that follows). -/
inductive SockData where
  | line : JObj → SockData
  | eof : SockData
  | wouldBlock : SockData
deriving DecidableEq

/-- State of one QEMUMonitorProtocol object, plus its socket's incoming
stream and outgoing trace. -/
structure Sess where
  events : List JObj
  input : List SockData
  sent : List String
deriving DecidableEq

/-- Python exceptions that escape a method of the class, together with
the blocked outcome, standing for a blocking read that never returns
because no data ever arrives. -/
inductive QErr where
  | socketErr : Nat → QErr
  | blocked : QErr
  | qmpConnectError : QErr
  | qmpCapabilitiesError : QErr
  | pyExn : JValue → QErr
  | indexError : QErr
  | typeError : QErr
  | keyError : QErr
  | valueError : QErr
deriving DecidableEq

instance {ε α : Type _} [DecidableEq ε] [DecidableEq α] : DecidableEq (Except ε α) := fun x y =>
  match x, y with
  | .ok a, .ok b =>
    match decEq a b with
    | .isTrue h => .isTrue (congrArg Except.ok h)
    | .isFalse h => .isFalse fun hx => h (Except.ok.inj hx)
  | .error a, .error b =>
    match decEq a b with
    | .isTrue h => .isTrue (congrArg Except.error h)
    | .isFalse h => .isFalse fun hx => h (Except.error.inj hx)
  | .ok _, .error _ => .isFalse fun hx => Except.noConfusion hx
  | .error _, .ok _ => .isFalse fun hx => Except.noConfusion hx

/-- Result of one __json_read call: the returned value (None at end of
stream), the EAGAIN exception, or blocking forever. -/
inductive ReadOutcome where
  | val : Option JObj → ReadOutcome
  | eagain : ReadOutcome
  | blockedForever : ReadOutcome
deriving DecidableEq

structure ReadResult where
  outcome : ReadOutcome
  events : List JObj
  input : List SockData
deriving DecidableEq

/-- Model of QEMUMonitorProtocol.__json_read (qmp.py lines 62-72): loop
reading lines; an empty read returns None; a line with an event key is
appended to self.__events and, unless only_event, the loop continues;
any other line is returned.  Events already appended are retained even
when a later non-blocking read raises EAGAIN, because the append
mutates self.__events in place. -/
def jsonRead (blocking onlyEvent : Bool) (events : List JObj) : List SockData → ReadResult
  | [] => ⟨if blocking then .blockedForever else .eagain, events, []⟩
  | .wouldBlock :: rest =>
    if blocking then jsonRead blocking onlyEvent events rest
    else ⟨.eagain, events, .wouldBlock :: rest⟩
  | .eof :: rest => ⟨.val none, events, .eof :: rest⟩
  | .line m :: rest =>
    if m.hasKey "event" then
      if onlyEvent then ⟨.val (some m), events ++ [m], rest⟩
      else jsonRead blocking onlyEvent (events ++ [m]) rest
    else ⟨.val (some m), events, rest⟩

/-- Outcome of the sendall call inside cmd_obj: success, or a
socket.error carrying this errno. -/
inductive SendOutcome where
  | ok : SendOutcome
  | fail : Nat → SendOutcome
deriving DecidableEq

def EPIPE : Nat := 32
def EAGAIN : Nat := 11

/-- Model of QEMUMonitorProtocol.cmd_obj (qmp.py lines 103-117): send
the serialized command; on a socket.error whose errno is EPIPE return
None, otherwise re-raise the socket.error; then read the next
non-event line in blocking mode (events read meanwhile are appended to
self.__events). -/
def cmd_obj (send : SendOutcome) (q : JObj) (s : Sess) : Except QErr (Option JObj × Sess) :=
  match send with
  | .fail e => if e = EPIPE then .ok (none, s) else .error (.socketErr e)
  | .ok =>
    let sent2 := s.sent ++ [dumps (.jobj q)]
    let r := jsonRead true false s.events s.input
    match r.outcome with
    | .val m => .ok (m, ⟨r.events, r.input, sent2⟩)
    | _ => .error .blocked

/-- Python truthiness of the args and id parameters of cmd. -/
def pyTruthy : JValue → Bool
  | .jnull => false
  | .jbool b => b
  | .jnum n => n != 0
  | .jstr s => s != ""
  | .jarr .nil => false
  | .jarr (.cons _ _) => true
  | .jobj .nil => false
  | .jobj (.cons _ _ _) => true

def idPart (idv : JValue) : JObj :=
  if pyTruthy idv then JObj.cons "id" idv .nil else .nil

/-- Command object built by QEMUMonitorProtocol.cmd (qmp.py lines
127-131): the execute key always, the arguments and id keys only when
the corresponding parameter is truthy. -/
def buildCmd (name : String) (args idv : JValue) : JObj :=
  JObj.cons "execute" (.jstr name)
    (if pyTruthy args then JObj.cons "arguments" args (idPart idv) else idPart idv)

/-- Model of QEMUMonitorProtocol.cmd (qmp.py lines 119-132). -/
def cmd (name : String) (args idv : JValue) (send : SendOutcome) (s : Sess) :
    Except QErr (Option JObj × Sess) :=
  cmd_obj send (buildCmd name args idv) s

/-- Model of QEMUMonitorProtocol.command (qmp.py lines 134-138): call
cmd with the keyword arguments as the args dict; a response carrying
an error key raises Exception(ret.error.desc); otherwise the return
payload is returned (a missing return key is a KeyError, a None
response makes the membership test a TypeError). -/
def command (name : String) (kwds : JObj) (send : SendOutcome) (s : Sess) :
    Except QErr (JValue × Sess) :=
  match cmd name (.jobj kwds) .jnull send s with
  | .error e => .error e
  | .ok (none, _) => .error .typeError
  | .ok (some ret, s2) =>
    match ret.lookup "error" with
    | some (.jobj eo) =>
      match eo.lookup "desc" with
      | some d => .error (.pyExn d)
      | none => .error .keyError
    | some _ => .error .typeError
    | none =>
      match ret.lookup "return" with
      | some v => .ok (v, s2)
      | none => .error .keyError

/-- Model of QEMUMonitorProtocol.pull_event (qmp.py lines 140-158): one
non-blocking __json_read with the EAGAIN exception swallowed; then, if
self.__events is empty and wait is set, one blocking __json_read with
only_event; finally pop self.__events[0], which raises IndexError when
the list is still empty. -/
def pullEvent (wait : Bool) (s : Sess) : Except QErr (JObj × Sess) :=
  let r := jsonRead false false s.events s.input
  if r.events.isEmpty && wait then
    let r2 := jsonRead true true r.events r.input
    match r2.outcome with
    | .val _ =>
      match r2.events with
      | [] => .error .indexError
      | e :: es => .ok (e, ⟨es, r2.input, s.sent⟩)
    | _ => .error .blocked
  else
    match r.events with
    | [] => .error .indexError
    | e :: es => .ok (e, ⟨es, r.input, s.sent⟩)

/-- Repeated pull_event(wait=False) calls, collecting the events they
return, stopping at the first failure. -/
def pullSeq : Nat → Sess → List JObj × Sess
  | 0, s => ([], s)
  | n + 1, s =>
    match pullEvent false s with
    | .ok (e, s2) =>
      let p := pullSeq n s2
      (e :: p.1, p.2)
    | .error _ => ([], s)

/-- Model of QEMUMonitorProtocol.__negotiate_capabilities (qmp.py lines
51-60): read the greeting; None or a missing QMP key raises
QMPConnectError; then send qmp_capabilities via cmd; a response with a
return key yields the greeting, anything else raises
QMPCapabilitiesError. -/
def negotiateCapabilities (s : Sess) : Except QErr (JObj × Sess) :=
  let r := jsonRead true false s.events s.input
  match r.outcome with
  | .val none => .error .qmpConnectError
  | .val (some g) =>
    if g.hasKey "QMP" then
      match cmd "qmp_capabilities" .jnull .jnull .ok ⟨r.events, r.input, s.sent⟩ with
      | .error e => .error e
      | .ok (none, _) => .error .typeError
      | .ok (some resp, s2) =>
        if resp.hasKey "return" then .ok (g, s2) else .error .qmpCapabilitiesError
    else .error .qmpConnectError
  | _ => .error .blocked

/-! Address resolution: QMPQuery.__get_address (qmp.py lines 210-223). -/

/-- Python str.split with a single-character separator, on the
character list. -/
def splitColon : List Char → List (List Char)
  | [] => [[]]
  | c :: cs =>
    if c = ':' then [] :: splitColon cs
    else
      match splitColon cs with
      | [] => [[c]]
      | g :: gs => (c :: g) :: gs

/-- Whitespace characters int() strips from both ends. -/
def isPyWs (c : Char) : Bool :=
  c = ' ' || c = '\t' || c = '\n' || c = '\r' || c = Char.ofNat 11 || c = Char.ofNat 12

def trimWs (l : List Char) : List Char :=
  ((l.dropWhile isPyWs).reverse.dropWhile isPyWs).reverse

/-- Digit loop of int(), allowing a single underscore between digits. -/
def pyDigits : Nat → List Char → Option Nat
  | acc, [] => some acc
  | acc, c :: cs =>
    if c.isDigit then pyDigits (acc * 10 + (c.toNat - 48)) cs
    else if c = '_' then
      match cs with
      | d :: cs2 => if d.isDigit then pyDigits (acc * 10 + (d.toNat - 48)) cs2 else none
      | [] => none
    else none

def pyUnsigned : List Char → Option Nat
  | [] => none
  | c :: cs => if c.isDigit then pyDigits (c.toNat - 48) cs else none

/-- Model of Python int(str): surrounding whitespace stripped, one
optional sign, then decimal digits with single underscores strictly
between digits; none models the ValueError. -/
def pyInt (s : String) : Option Int :=
  match trimWs s.data with
  | [] => none
  | c :: cs =>
    if c = '-' then (pyUnsigned cs).map (fun n => -(n : Int))
    else if c = '+' then (pyUnsigned cs).map (fun n => (n : Int))
    else (pyUnsigned (c :: cs)).map (fun n => (n : Int))

/-- Return value of __get_address: the (host, port) tuple or the path
string. -/
inductive Addr where
  | hostPort : String → Int → Addr
  | path : String → Addr
deriving DecidableEq

/-- Model of QMPQuery.__get_address (qmp.py lines 210-223): split on
every colon; with exactly two parts, parse the second as an int (a
ValueError is re-raised) and return the (host, port) tuple; otherwise
the string is a socket path. -/
def getAddress (arg : String) : Except QErr Addr :=
  let parts := splitColon arg.data
  if parts.length = 2 then
    match pyInt (String.mk (parts.getD 1 [])) with
    | some p => .ok (.hostPort (String.mk (parts.getD 0 [])) p)
    | none => .error .valueError
  else .ok (.path arg)

/-! Helper lemmas about the session operations. -/

theorem hasKey_eq_false {o : JObj} {k : String} (h : o.hasKey k = false) :
    o.lookup k = none := by
  unfold JObj.hasKey at h
  cases hl : o.lookup k with
  | none => rfl
  | some v => rw [hl] at h; simp at h

theorem jsonRead_skip_events (blocking : Bool) (evs acc : List JObj) (rest : List SockData)
    (h : ∀ e ∈ evs, e.hasKey "event" = true) :
    jsonRead blocking false acc (evs.map SockData.line ++ rest) =
      jsonRead blocking false (acc ++ evs) rest := by
  induction evs generalizing acc with
  | nil => simp
  | cons e tl ih =>
    have he : e.hasKey "event" = true := h e (List.mem_cons_self e tl)
    simp only [List.map_cons, List.cons_append, jsonRead, he, if_true, Bool.false_eq_true,
      if_false, List.append_eq]
    rw [ih (acc ++ [e]) (fun x hx => h x (List.mem_cons_of_mem _ hx))]
    simp

theorem jsonRead_resp (blocking : Bool) (acc : List JObj) (resp : JObj) (rest : List SockData)
    (h : resp.hasKey "event" = false) :
    jsonRead blocking false acc (.line resp :: rest) =
      ⟨.val (some resp), acc, rest⟩ := by
  simp [jsonRead, h]

theorem cmd_obj_ok (q : JObj) (evs acc : List JObj) (resp : JObj) (rest : List SockData)
    (snt : List String)
    (hevs : ∀ e ∈ evs, e.hasKey "event" = true)
    (hre : resp.hasKey "event" = false) :
    cmd_obj .ok q ⟨acc, evs.map SockData.line ++ SockData.line resp :: rest, snt⟩ =
      .ok (some resp, ⟨acc ++ evs, rest, snt ++ [dumps (.jobj q)]⟩) := by
  unfold cmd_obj
  rw [show (SockData.line resp :: rest) = ([SockData.line resp] ++ rest) from rfl] at *
  rw [show evs.map SockData.line ++ ([SockData.line resp] ++ rest)
      = evs.map SockData.line ++ (SockData.line resp :: rest) from by simp]
  rw [jsonRead_skip_events true evs acc _ hevs, jsonRead_resp true _ resp rest hre]

theorem cmd_obj_eof (q : JObj) (acc : List JObj) (rest : List SockData) (snt : List String) :
    cmd_obj .ok q ⟨acc, .eof :: rest, snt⟩ =
      .ok (none, ⟨acc, .eof :: rest, snt ++ [dumps (.jobj q)]⟩) := by
  simp [cmd_obj, jsonRead]

theorem pullSeq_drain (evs : List JObj) (snt : List String) :
    pullSeq evs.length ⟨evs, [], snt⟩ = (evs, ⟨[], [], snt⟩) := by
  induction evs with
  | nil => rfl
  | cons e tl ih =>
    show pullSeq (tl.length + 1) _ = _
    simp only [pullSeq, pullEvent, jsonRead, List.isEmpty_cons, Bool.false_and,
      Bool.false_eq_true, if_false]
    rw [ih]

/-- C1: for every exchange in which the peer sends N event-shaped lines
before the response line, command appends those N events to the
internal event queue in arrival order and returns the value of the
response's return field (with no interleaved events this is exactly
the peer's return payload), and subsequent pull_event calls yield
exactly those N events in the order sent. -/
theorem C1_command_events_in_order
    (name : String) (kwds : JObj) (evs : List JObj) (resp : JObj) (rv : JValue)
    (snt : List String)
    (hevs : ∀ e ∈ evs, e.hasKey "event" = true)
    (hre : resp.hasKey "event" = false)
    (herr : resp.hasKey "error" = false)
    (hret : resp.lookup "return" = some rv) :
    command name kwds .ok ⟨[], evs.map SockData.line ++ [SockData.line resp], snt⟩ =
      .ok (rv, ⟨evs, [], snt ++ [dumps (.jobj (buildCmd name (.jobj kwds) .jnull))]⟩) ∧
    pullSeq evs.length ⟨evs, [], snt ++ [dumps (.jobj (buildCmd name (.jobj kwds) .jnull))]⟩ =
      (evs, ⟨[], [], snt ++ [dumps (.jobj (buildCmd name (.jobj kwds) .jnull))]⟩) := by
  constructor
  · unfold command cmd
    rw [show (evs.map SockData.line ++ [SockData.line resp])
        = evs.map SockData.line ++ SockData.line resp :: [] from rfl]
    rw [cmd_obj_ok _ evs [] resp [] snt hevs hre]
    simp only [List.nil_append, hasKey_eq_false herr, hret]
  · exact pullSeq_drain evs _

/-- Witness for C1 at a concrete exchange: two events precede the
response. -/
theorem C1_witness :
    command "query-status" .nil .ok
        ⟨[], [SockData.line (.cons "event" (.jstr "E1") .nil),
              SockData.line (.cons "event" (.jstr "E2") .nil),
              SockData.line (.cons "return" (.jstr "ok") .nil)], []⟩ =
      .ok (.jstr "ok",
        ⟨[.cons "event" (.jstr "E1") .nil, .cons "event" (.jstr "E2") .nil], [],
         [dumps (.jobj (buildCmd "query-status" (.jobj .nil) .jnull))]⟩) ∧
    pullSeq 2 ⟨[.cons "event" (.jstr "E1") .nil, .cons "event" (.jstr "E2") .nil], [],
         [dumps (.jobj (buildCmd "query-status" (.jobj .nil) .jnull))]⟩ =
      ([.cons "event" (.jstr "E1") .nil, .cons "event" (.jstr "E2") .nil],
        ⟨[], [], [dumps (.jobj (buildCmd "query-status" (.jobj .nil) .jnull))]⟩) := by
  have h := C1_command_events_in_order "query-status" .nil
    [.cons "event" (.jstr "E1") .nil, .cons "event" (.jstr "E2") .nil]
    (.cons "return" (.jstr "ok") .nil) (.jstr "ok") []
    (by decide) (by decide) (by decide) (by decide)
  exact h

/-- C2 counterexample: with an empty queue, a blocking pull_event that
reads a Response-shaped line, or hits end of stream, fails with the
IndexError from popping the empty list, not with a typed
ProtocolViolation or ConnectionClosed error. -/
theorem C2_counterexample :
    pullEvent true ⟨[], [.wouldBlock, .line (.cons "return" .jnull .nil)], []⟩ =
      .error .indexError ∧
    pullEvent true ⟨[], [.wouldBlock, .eof], []⟩ = .error .indexError := by
  decide

/-- C2 amended: pull_event(wait=true) with an empty queue and no
pending data blocks until a line arrives; an Event-shaped line is
returned, but a Response-shaped line or a peer disconnect makes
pull_event fail with an uncaught IndexError from popping the still
empty queue (the same untyped error in both cases). -/
theorem C2_amended_wait_pull (ev resp : JObj) (snt : List String)
    (hev : ev.hasKey "event" = true)
    (hresp : resp.hasKey "event" = false) :
    pullEvent true ⟨[], [.wouldBlock, .line ev], snt⟩ = .ok (ev, ⟨[], [], snt⟩) ∧
    pullEvent true ⟨[], [.wouldBlock, .line resp], snt⟩ = .error .indexError ∧
    pullEvent true ⟨[], [.wouldBlock, .eof], snt⟩ = .error .indexError := by
  refine ⟨?_, ?_, ?_⟩
  · simp [pullEvent, jsonRead, hev]
  · simp [pullEvent, jsonRead, hresp]
  · simp [pullEvent, jsonRead]

/-- Witness for C2 amended at concrete messages. -/
theorem C2_amended_witness :
    pullEvent true ⟨[], [.wouldBlock, .line (.cons "event" (.jstr "STOP") .nil)], []⟩ =
      .ok (.cons "event" (.jstr "STOP") .nil, ⟨[], [], []⟩) ∧
    pullEvent true ⟨[], [.wouldBlock, .line (.cons "return" .jnull .nil)], []⟩ =
      .error .indexError ∧
    pullEvent true ⟨[], [.wouldBlock, .eof], []⟩ = .error .indexError :=
  C2_amended_wait_pull (.cons "event" (.jstr "STOP") .nil) (.cons "return" .jnull .nil) []
    (by decide) (by decide)

/-- C3 counterexample: a command issued on a session on which no
capability negotiation was ever performed (fresh state, negotiation
never run) does not fail with any NotNegotiated error: it is sent and
its response is returned. -/
theorem C3_counterexample :
    cmd "query-status" .jnull .jnull .ok
        ⟨[], [.line (.cons "return" (.jobj .nil) .nil)], []⟩ =
      .ok (some (.cons "return" (.jobj .nil) .nil),
        ⟨[], [], [dumps (.jobj (buildCmd "query-status" .jnull .jnull))]⟩) := by
  decide

/-- C3 amended: the command path performs no negotiated-state check at
all; the class stores no negotiation flag, and cmd sends the command
and returns the peer's response identically whether or not
negotiation ever took place. -/
theorem C3_amended_no_negotiation_check (name : String) (resp : JObj)
    (rest : List SockData) (snt : List String)
    (hre : resp.hasKey "event" = false) :
    cmd name .jnull .jnull .ok ⟨[], .line resp :: rest, snt⟩ =
      .ok (some resp, ⟨[], rest, snt ++ [dumps (.jobj (buildCmd name .jnull .jnull))]⟩) := by
  unfold cmd
  have h := cmd_obj_ok (buildCmd name .jnull .jnull) [] [] resp rest snt
    (by intro e he; cases he) hre
  simpa using h

/-- Witness for C3 amended. -/
theorem C3_amended_witness :
    cmd "cont" .jnull .jnull .ok ⟨[], [.line (.cons "return" .jnull .nil)], []⟩ =
      .ok (some (.cons "return" .jnull .nil),
        ⟨[], [], [dumps (.jobj (buildCmd "cont" .jnull .jnull))]⟩) :=
  C3_amended_no_negotiation_check "cont" (.cons "return" .jnull .nil) [] [] (by decide)

/-- C4 counterexample: pull_event(wait=false) on an empty queue with no
pending bytes does not return a no-event outcome: it fails with an
uncaught IndexError. -/
theorem C4_counterexample :
    pullEvent false ⟨[], [], []⟩ = .error .indexError := by
  decide

/-- C4 amended: pull_event(wait=false) on an empty queue with no
pending bytes performs one non-blocking drain and then fails with an
uncaught IndexError from popping the empty queue; it does not block
and does not return a no-event value. -/
theorem C4_amended_nowait_pull (snt : List String) :
    pullEvent false ⟨[], [], snt⟩ = .error .indexError ∧
    pullEvent false ⟨[], [.wouldBlock], snt⟩ = .error .indexError := by
  constructor
  · simp [pullEvent, jsonRead]
  · simp [pullEvent, jsonRead]

/-- C5 counterexample: a broken-pipe write failure makes cmd_obj return
None as a success value rather than fail with a typed ConnectError,
and an orderly peer shutdown while waiting for the response also
yields None rather than a ConnectionClosed failure. -/
theorem C5_counterexample :
    cmd_obj (.fail EPIPE) (buildCmd "stop" .jnull .jnull) ⟨[], [], []⟩ =
      .ok (none, ⟨[], [], []⟩) ∧
    cmd_obj .ok (buildCmd "stop" .jnull .jnull) ⟨[], [.eof], []⟩ =
      .ok (none, ⟨[], [.eof], [dumps (.jobj (buildCmd "stop" .jnull .jnull))]⟩) := by
  decide

/-- C5 amended: a broken-pipe (EPIPE) failure while writing makes
cmd_obj silently return None; every other OS write error is re-raised
as a socket.error with the same errno; an orderly peer shutdown
(zero-byte read) while waiting for the response also makes cmd_obj
return None rather than fail. -/
theorem C5_amended_transport_failures (q : JObj) (s : Sess) (e : Nat)
    (acc : List JObj) (rest : List SockData) (snt : List String)
    (hne : e ≠ EPIPE) :
    cmd_obj (.fail EPIPE) q s = .ok (none, s) ∧
    cmd_obj (.fail e) q s = .error (.socketErr e) ∧
    cmd_obj .ok q ⟨acc, .eof :: rest, snt⟩ =
      .ok (none, ⟨acc, .eof :: rest, snt ++ [dumps (.jobj q)]⟩) := by
  refine ⟨by simp [cmd_obj], by simp [cmd_obj, hne], cmd_obj_eof q acc rest snt⟩

/-- Witness for C5 amended at errno 104 (ECONNRESET). -/
theorem C5_amended_witness :
    cmd_obj (.fail EPIPE) (buildCmd "stop" .jnull .jnull) ⟨[], [], []⟩ =
      .ok (none, ⟨[], [], []⟩) ∧
    cmd_obj (.fail 104) (buildCmd "stop" .jnull .jnull) ⟨[], [], []⟩ =
      .error (.socketErr 104) ∧
    cmd_obj .ok (buildCmd "stop" .jnull .jnull) ⟨[], [.eof], []⟩ =
      .ok (none, ⟨[], [.eof], [dumps (.jobj (buildCmd "stop" .jnull .jnull))]⟩) :=
  C5_amended_transport_failures (buildCmd "stop" .jnull .jnull) ⟨[], [], []⟩ 104 [] [] []
    (by decide)

/-- C6 counterexample: two error responses differing only in their
class field produce identical outcomes of command, so the raised
error cannot carry the class; it carries only the desc payload. -/
theorem C6_counterexample :
    command "q" .nil .ok
        ⟨[], [.line (.cons "error"
          (.jobj (.cons "class" (.jstr "GenericError") (.cons "desc" (.jstr "boom") .nil)))
          .nil)], []⟩ =
      .error (.pyExn (.jstr "boom")) ∧
    command "q" .nil .ok
        ⟨[], [.line (.cons "error"
          (.jobj (.cons "class" (.jstr "KVMMissingCap") (.cons "desc" (.jstr "boom") .nil)))
          .nil)], []⟩ =
      .error (.pyExn (.jstr "boom")) := by
  decide

/-- C6 amended: a peer error response makes command raise a plain
Exception carrying only the desc field of the error payload; the
class field is discarded, so the raised error is not a typed
CommandError and callers cannot branch on the class. -/
theorem C6_amended_error_desc_only (name : String) (kwds : JObj) (resp : JObj) (eo : JObj)
    (d : JValue) (rest : List SockData) (snt : List String)
    (hre : resp.hasKey "event" = false)
    (herr : resp.lookup "error" = some (.jobj eo))
    (hdesc : eo.lookup "desc" = some d) :
    command name kwds .ok ⟨[], .line resp :: rest, snt⟩ = .error (.pyExn d) := by
  unfold command cmd
  have h := cmd_obj_ok (buildCmd name (.jobj kwds) .jnull) [] [] resp rest snt
    (by intro e he; cases he) hre
  simp only [List.map_nil, List.nil_append] at h
  rw [h]
  simp only [herr, hdesc]

/-- Witness for C6 amended. -/
theorem C6_amended_witness :
    command "q" .nil .ok
        ⟨[], [.line (.cons "error"
          (.jobj (.cons "class" (.jstr "GenericError") (.cons "desc" (.jstr "boom") .nil)))
          .nil)], []⟩ =
      .error (.pyExn (.jstr "boom")) :=
  C6_amended_error_desc_only "q" .nil
    (.cons "error"
      (.jobj (.cons "class" (.jstr "GenericError") (.cons "desc" (.jstr "boom") .nil))) .nil)
    (.cons "class" (.jstr "GenericError") (.cons "desc" (.jstr "boom") .nil))
    (.jstr "boom") [] [] (by decide) (by decide) (by decide)

/-- C7: the handshake reads one line which must carry a QMP key,
raising the greeting error (QMPConnectError, the code's handshake
error) when the key is absent or the stream ended; it then sends the
qmp_capabilities command, and a reply without a return field raises
QMPCapabilitiesError, leaving negotiation uncompleted, while a reply
with a return field completes negotiation and yields the greeting. -/
theorem C7_negotiation (g resp : JObj) (rest : List SockData) (snt : List String)
    (hg : g.hasKey "event" = false)
    (hresp : resp.hasKey "event" = false) :
    (negotiateCapabilities ⟨[], [.eof], snt⟩ = .error .qmpConnectError) ∧
    (g.hasKey "QMP" = false →
      negotiateCapabilities ⟨[], .line g :: rest, snt⟩ = .error .qmpConnectError) ∧
    (g.hasKey "QMP" = true → resp.hasKey "return" = false →
      negotiateCapabilities ⟨[], [.line g, .line resp], snt⟩ =
        .error .qmpCapabilitiesError) ∧
    (g.hasKey "QMP" = true → resp.hasKey "return" = true →
      negotiateCapabilities ⟨[], [.line g, .line resp], snt⟩ =
        .ok (g, ⟨[], [],
          snt ++ [dumps (.jobj (buildCmd "qmp_capabilities" .jnull .jnull))]⟩)) := by
  refine ⟨?_, ?_, ?_, ?_⟩
  · simp [negotiateCapabilities, jsonRead]
  · intro hq
    unfold negotiateCapabilities
    rw [jsonRead_resp true [] g _ hg]
    simp [hq]
  · intro hq hret
    unfold negotiateCapabilities
    rw [show ([SockData.line g, SockData.line resp] : List SockData)
        = SockData.line g :: [SockData.line resp] from rfl]
    rw [jsonRead_resp true [] g _ hg]
    simp only [hq, if_true]
    unfold cmd
    have hco := cmd_obj_ok (buildCmd "qmp_capabilities" .jnull .jnull) [] [] resp [] snt
      (by intro e he; cases he) hresp
    simp only [List.map_nil, List.nil_append] at hco
    rw [hco]
    simp [hret]
  · intro hq hret
    unfold negotiateCapabilities
    rw [show ([SockData.line g, SockData.line resp] : List SockData)
        = SockData.line g :: [SockData.line resp] from rfl]
    rw [jsonRead_resp true [] g _ hg]
    simp only [hq, if_true]
    unfold cmd
    have hco := cmd_obj_ok (buildCmd "qmp_capabilities" .jnull .jnull) [] [] resp [] snt
      (by intro e he; cases he) hresp
    simp only [List.map_nil, List.nil_append] at hco
    rw [hco]
    simp [hret]

/-- Witness for C7 at concrete greeting and responses. -/
theorem C7_witness :
    negotiateCapabilities ⟨[], [.eof], []⟩ = .error .qmpConnectError ∧
    negotiateCapabilities ⟨[], [.line (.cons "qemu" .jnull .nil)], []⟩ =
      .error .qmpConnectError ∧
    negotiateCapabilities
        ⟨[], [.line (.cons "QMP" (.jobj .nil) .nil),
              .line (.cons "error" (.jobj .nil) .nil)], []⟩ =
      .error .qmpCapabilitiesError ∧
    negotiateCapabilities
        ⟨[], [.line (.cons "QMP" (.jobj .nil) .nil),
              .line (.cons "return" (.jobj .nil) .nil)], []⟩ =
      .ok (.cons "QMP" (.jobj .nil) .nil,
        ⟨[], [], [dumps (.jobj (buildCmd "qmp_capabilities" .jnull .jnull))]⟩) := by
  have h1 := C7_negotiation (.cons "qemu" .jnull .nil) (.cons "error" (.jobj .nil) .nil)
    [] [] (by decide) (by decide)
  have h2 := C7_negotiation (.cons "QMP" (.jobj .nil) .nil) (.cons "error" (.jobj .nil) .nil)
    [] [] (by decide) (by decide)
  have h3 := C7_negotiation (.cons "QMP" (.jobj .nil) .nil) (.cons "return" (.jobj .nil) .nil)
    [] [] (by decide) (by decide)
  exact ⟨h1.1, h1.2.1 (by decide), h2.2.2.1 (by decide) (by decide),
    h3.2.2.2 (by decide) (by decide)⟩

/-! Lemmas about the address resolver. -/

theorem splitColon_ne_nil (l : List Char) : splitColon l ≠ [] := by
  cases l with
  | nil => simp [splitColon]
  | cons c cs =>
    simp only [splitColon]
    split
    · simp
    · split <;> simp

theorem splitColon_no_colon (l : List Char) (h : ':' ∉ l) : splitColon l = [l] := by
  induction l with
  | nil => rfl
  | cons c cs ih =>
    have hc : ¬ c = ':' := by intro e; exact h (by simp [e])
    simp only [splitColon, if_neg hc, ih (fun hm => h (List.mem_cons_of_mem _ hm))]

theorem splitColon_append_colon (a b : List Char) (ha : ':' ∉ a) :
    splitColon (a ++ ':' :: b) = a :: splitColon b := by
  induction a with
  | nil => simp [splitColon]
  | cons c cs ih =>
    have hc : ¬ c = ':' := by intro e; exact ha (by simp [e])
    simp only [List.cons_append, splitColon, if_neg hc, List.append_eq,
      ih (fun hm => ha (List.mem_cons_of_mem _ hm))]

theorem splitColon_length (l : List Char) : (splitColon l).length = l.count ':' + 1 := by
  induction l with
  | nil => rfl
  | cons c cs ih =>
    by_cases hc : c = ':'
    · subst hc
      simp [splitColon, List.count_cons, ih]
    · simp only [splitColon, if_neg hc]
      cases hsc : splitColon cs with
      | nil => exact absurd hsc (splitColon_ne_nil cs)
      | cons g gs =>
        rw [hsc] at ih
        simp only [List.length_cons] at ih ⊢
        rw [List.count_cons]
        simp [hc, Ne.symm hc, ih]

/-- C9: the resolver yields a (host, port) pair exactly when the
endpoint string contains exactly one colon and the part after it
parses as a Python int; a one-colon string with a non-numeric port
raises the ValueError of int; any other string resolves to itself as
a socket path. -/
theorem C9_resolver :
    (∀ (a b : String), ':' ∉ a.data → ':' ∉ b.data →
      (∀ p, pyInt b = some p → getAddress (a ++ ":" ++ b) = .ok (.hostPort a p)) ∧
      (pyInt b = none → getAddress (a ++ ":" ++ b) = .error .valueError)) ∧
    (∀ s : String, s.data.count ':' ≠ 1 → getAddress s = .ok (.path s)) := by
  constructor
  · intro a b ha hb
    have hdata : (a ++ ":" ++ b).data = a.data ++ ':' :: b.data := by
      rw [String.data_append, String.data_append,
        show (":" : String).data = [':'] from rfl, List.append_assoc]
      rfl
    have hsplit : splitColon ((a ++ ":" ++ b).data) = [a.data, b.data] := by
      rw [hdata, splitColon_append_colon a.data b.data ha, splitColon_no_colon b.data hb]
    constructor
    · intro p hp
      unfold getAddress
      rw [hsplit]
      simp [hp]
    · intro hp
      unfold getAddress
      rw [hsplit]
      simp [hp]
  · intro s hs
    unfold getAddress
    have hlen : (splitColon s.data).length ≠ 2 := by
      rw [splitColon_length]
      omega
    simp [hlen]

/-- Witness for C9 at the spec's concrete examples. -/
theorem C9_witness :
    getAddress ("localhost" ++ ":" ++ "4444") = .ok (.hostPort "localhost" 4444) ∧
    getAddress ("localhost" ++ ":" ++ "notaport") = .error .valueError ∧
    getAddress "/tmp/qmp.sock" = .ok (.path "/tmp/qmp.sock") ∧
    getAddress "a:b:c" = .ok (.path "a:b:c") := by
  refine ⟨?_, ?_, ?_, ?_⟩
  · exact ((C9_resolver.1 "localhost" "4444" (by decide) (by decide)).1 4444 (by decide))
  · exact ((C9_resolver.1 "localhost" "notaport" (by decide) (by decide)).2 (by decide))
  · exact (C9_resolver.2 "/tmp/qmp.sock" (by decide))
  · exact (C9_resolver.2 "a:b:c" (by decide))

/-! Character-level lemmas for the JSON roundtrip. -/

theorem char_toNat_ofNat {n : Nat} (h : n.isValidChar) : (Char.ofNat n).toNat = n := by
  simp only [Char.ofNat, h, dif_pos, Char.ofNatAux, Char.toNat]
  rfl

theorem char_valid_nat (c : Char) :
    c.toNat < 55296 ∨ (57343 < c.toNat ∧ c.toNat < 1114112) := by
  rcases c.valid with h | h
  · exact Or.inl h
  · exact Or.inr h

theorem char_eq_ofNat {c : Char} {n : Nat} (h : c.toNat = n) : c = Char.ofNat n := by
  rw [← h, Char.ofNat_toNat]

theorem hexVal_hexDig : ∀ k : Nat, k < 16 → hexVal (hexDig k) = some k := by decide

theorem hexRecompose (n : Nat) (h : n < 65536) :
    ((n / 4096 % 16 * 16 + n / 256 % 16) * 16 + n / 16 % 16) * 16 + n % 16 = n := by
  omega

theorem digitChar_facts (d : Nat) (h : d < 10) :
    (digitChar d).isDigit = true ∧ isWs (digitChar d) = false ∧
    (digitChar d).toNat = 48 + d ∧
    ¬ digitChar d = 'n' ∧ ¬ digitChar d = 't' ∧ ¬ digitChar d = 'f' ∧
    ¬ digitChar d = '"' ∧ ¬ digitChar d = '-' ∧ ¬ digitChar d = '[' ∧
    ¬ digitChar d = Char.ofNat 123 ∧ ¬ digitChar d = ']' ∧
    ¬ digitChar d = Char.ofNat 125 ∧ (1 ≤ d → ¬ digitChar d = '0') := by
  interval_cases d <;> exact (by decide)

/-! Decimal digit lemmas. -/

theorem natDigits_def (n : Nat) :
    natDigits n = if n < 10 then [n] else natDigits (n / 10) ++ [n % 10] := by
  by_cases h : n < 10
  · rw [natDigits]
    simp [h]
  · rw [natDigits]
    simp [h]

theorem natDigits_ne_nil (n : Nat) : natDigits n ≠ [] := by
  rw [natDigits_def]
  by_cases h : n < 10 <;> simp [h]

theorem natDigits_lt10 : ∀ n : Nat, ∀ d ∈ natDigits n, d < 10 := by
  intro n
  induction n using Nat.strong_induction_on with
  | _ n ih =>
    intro d hd
    rw [natDigits_def] at hd
    by_cases h : n < 10
    · simp [h] at hd
      omega
    · have hlt : n / 10 < n := Nat.div_lt_self (by omega) (by omega)
      simp only [h, if_false] at hd
      rcases List.mem_append.1 hd with hd | hd
      · exact ih (n / 10) hlt d hd
      · simp at hd
        omega

theorem natDigits_head : ∀ n : Nat, 1 ≤ n →
    ∃ d ds, natDigits n = d :: ds ∧ 1 ≤ d ∧ d < 10 := by
  intro n
  induction n using Nat.strong_induction_on with
  | _ n ih =>
    intro hn
    by_cases h : n < 10
    · exact ⟨n, [], by rw [natDigits_def]; simp [h], hn, h⟩
    · have hlt : n / 10 < n := Nat.div_lt_self (by omega) (by omega)
      obtain ⟨d, ds, hd, h1, h9⟩ := ih (n / 10) hlt (by omega)
      exact ⟨d, ds ++ [n % 10], by rw [natDigits_def]; simp [h, hd], h1, h9⟩

theorem natDigits_foldl : ∀ n acc : Nat,
    (natDigits n).foldl (fun a d => a * 10 + d) acc =
      acc * 10 ^ (natDigits n).length + n := by
  intro n
  induction n using Nat.strong_induction_on with
  | _ n ih =>
    intro acc
    by_cases h : n < 10
    · rw [natDigits_def]
      simp [h, pow_one]
    · rw [show natDigits n = natDigits (n / 10) ++ [n % 10] from by
        rw [natDigits_def]; simp [h]]
      have hlt : n / 10 < n := Nat.div_lt_self (by omega) (by omega)
      rw [List.foldl_append, ih (n / 10) hlt]
      simp only [List.foldl_cons, List.foldl_nil, List.length_append, List.length_cons,
        List.length_nil, Nat.zero_add]
      rw [pow_succ]
      rw [show acc * (10 ^ (natDigits (n / 10)).length * 10)
          = acc * 10 ^ (natDigits (n / 10)).length * 10 from by ring]
      omega

theorem digitLoop_append : ∀ (ds : List Nat) (acc : Nat) (rest : List Char),
    (∀ d ∈ ds, d < 10) → noDigitHead rest = true →
    digitLoop acc (ds.map digitChar ++ rest) =
      (ds.foldl (fun a d => a * 10 + d) acc, rest) := by
  intro ds
  induction ds with
  | nil =>
    intro acc rest _ hrest
    simp only [List.map_nil, List.nil_append, List.foldl_nil]
    cases rest with
    | nil => rfl
    | cons c cs =>
      have hc : c.isDigit = false := by simpa [noDigitHead] using hrest
      simp [digitLoop, hc]
  | cons d ds ih =>
    intro acc rest hds hrest
    have hd : d < 10 := hds d (List.mem_cons_self _ _)
    obtain ⟨hdig, -, htoNat, -⟩ := digitChar_facts d hd
    simp only [List.map_cons, List.cons_append, digitLoop, hdig, if_true, List.foldl_cons]
    rw [show (digitChar d).toNat - 48 = d from by omega]
    exact ih (acc * 10 + d) rest (fun x hx => hds x (List.mem_cons_of_mem _ hx)) hrest

theorem parsePosNat_natRepr (n : Nat) (rest : List Char) (hrest : noDigitHead rest = true) :
    parsePosNat (natRepr n ++ rest) = some (n, rest) := by
  by_cases h0 : n = 0
  · subst h0
    rw [show natRepr 0 = ['0'] from by
      rw [natRepr, natDigits_def]
      simp
      rfl]
    simp [parsePosNat]
  · obtain ⟨d, ds, hd, h1, h9⟩ := natDigits_head n (by omega)
    obtain ⟨hdig, hws, htoNat, hn, ht, hf, hq, hm, hb, hbr, hrb, hbc, h0d⟩ :=
      digitChar_facts d h9
    have hrepr : natRepr n = digitChar d :: ds.map digitChar := by simp [natRepr, hd]
    rw [hrepr]
    simp only [List.cons_append, parsePosNat, if_neg (h0d h1), hdig, if_true]
    rw [show (digitChar d).toNat - 48 = d from by omega]
    rw [digitLoop_append ds d rest
      (fun x hx => natDigits_lt10 n x (hd ▸ List.mem_cons_of_mem _ hx)) hrest]
    have hf2 : ds.foldl (fun a d => a * 10 + d) d = n := by
      have hfd := natDigits_foldl n 0
      rw [hd] at hfd
      simpa using hfd
    rw [hf2]

/-! Roundtrip of the string escaper. -/

theorem parseEscape_u (c1 c2 c3 c4 : Char) (X : List Char) :
    parseEscape ('u' :: c1 :: c2 :: c3 :: c4 :: X) =
      (match hexVal c1, hexVal c2, hexVal c3, hexVal c4 with
      | some a1, some a2, some a3, some a4 =>
        if 55296 ≤ ((a1 * 16 + a2) * 16 + a3) * 16 + a4 ∧
            ((a1 * 16 + a2) * 16 + a3) * 16 + a4 ≤ 56319 then
          match X with
          | b0 :: bu :: d1 :: d2 :: d3 :: d4 :: cs3 =>
            if b0 = '\\' ∧ bu = 'u' then
              match hexVal d1, hexVal d2, hexVal d3, hexVal d4 with
              | some e1, some e2, some e3, some e4 =>
                if 56320 ≤ ((e1 * 16 + e2) * 16 + e3) * 16 + e4 ∧
                    ((e1 * 16 + e2) * 16 + e3) * 16 + e4 ≤ 57343 then
                  some (Char.ofNat
                    (65536 + ((((a1 * 16 + a2) * 16 + a3) * 16 + a4) - 55296) * 1024 +
                      ((((e1 * 16 + e2) * 16 + e3) * 16 + e4) - 56320)), cs3)
                else none
              | _, _, _, _ => none
            else none
          | _ => none
        else if 56320 ≤ ((a1 * 16 + a2) * 16 + a3) * 16 + a4 ∧
            ((a1 * 16 + a2) * 16 + a3) * 16 + a4 ≤ 57343 then none
        else some (Char.ofNat (((a1 * 16 + a2) * 16 + a3) * 16 + a4), X)
      | _, _, _, _ => none) := rfl

theorem parseEscape_hex4 (n : Nat) (X : List Char) (hn : n < 65536)
    (hval : n < 55296 ∨ 57343 < n) :
    parseEscape ('u' :: (hexDigits4 n ++ X)) = some (Char.ofNat n, X) := by
  have e1 := hexVal_hexDig (n / 4096 % 16) (by omega)
  have e2 := hexVal_hexDig (n / 256 % 16) (by omega)
  have e3 := hexVal_hexDig (n / 16 % 16) (by omega)
  have e4 := hexVal_hexDig (n % 16) (by omega)
  rw [show hexDigits4 n ++ X = hexDig (n / 4096 % 16) :: hexDig (n / 256 % 16) ::
    hexDig (n / 16 % 16) :: hexDig (n % 16) :: X from rfl]
  rw [parseEscape_u, e1, e2, e3, e4]
  simp only [hexRecompose n hn]
  rw [if_neg (by omega), if_neg (by omega)]

theorem parseEscape_surrogatePair (t : Nat) (X : List Char)
    (h1 : 65536 ≤ t) (h2 : t < 1114112) :
    parseEscape ('u' :: (hexDigits4 (55296 + (t - 65536) / 1024) ++
      ('\\' :: 'u' :: (hexDigits4 (56320 + (t - 65536) % 1024) ++ X)))) =
      some (Char.ofNat t, X) := by
  have hhi : 55296 + (t - 65536) / 1024 < 65536 := by omega
  have hlo : 56320 + (t - 65536) % 1024 < 65536 := by omega
  have e1 := hexVal_hexDig ((55296 + (t - 65536) / 1024) / 4096 % 16) (by omega)
  have e2 := hexVal_hexDig ((55296 + (t - 65536) / 1024) / 256 % 16) (by omega)
  have e3 := hexVal_hexDig ((55296 + (t - 65536) / 1024) / 16 % 16) (by omega)
  have e4 := hexVal_hexDig ((55296 + (t - 65536) / 1024) % 16) (by omega)
  have f1 := hexVal_hexDig ((56320 + (t - 65536) % 1024) / 4096 % 16) (by omega)
  have f2 := hexVal_hexDig ((56320 + (t - 65536) % 1024) / 256 % 16) (by omega)
  have f3 := hexVal_hexDig ((56320 + (t - 65536) % 1024) / 16 % 16) (by omega)
  have f4 := hexVal_hexDig ((56320 + (t - 65536) % 1024) % 16) (by omega)
  rw [show ∀ m : Nat, ∀ Y : List Char, hexDigits4 m ++ Y = hexDig (m / 4096 % 16) ::
    hexDig (m / 256 % 16) :: hexDig (m / 16 % 16) :: hexDig (m % 16) :: Y
    from fun m Y => rfl]
  rw [show ∀ m : Nat, ∀ Y : List Char, hexDigits4 m ++ Y = hexDig (m / 4096 % 16) ::
    hexDig (m / 256 % 16) :: hexDig (m / 16 % 16) :: hexDig (m % 16) :: Y
    from fun m Y => rfl]
  rw [parseEscape_u, e1, e2, e3, e4]
  simp only [hexRecompose _ hhi]
  rw [if_pos (by omega : 55296 ≤ 55296 + (t - 65536) / 1024 ∧
    55296 + (t - 65536) / 1024 ≤ 56319)]
  simp only [and_self, if_true]
  rw [f1, f2, f3, f4]
  simp only [hexRecompose _ hlo]
  rw [if_pos (by omega : 56320 ≤ 56320 + (t - 65536) % 1024 ∧
    56320 + (t - 65536) % 1024 ≤ 57343)]
  rw [show 65536 + (55296 + (t - 65536) / 1024 - 55296) * 1024 +
    (56320 + (t - 65536) % 1024 - 56320) = t from by omega]

theorem parseStrCharsF_quote (f : Nat) (cs : List Char) :
    parseStrCharsF (f + 1) ('"' :: cs) = some ([], cs) := rfl

theorem parseStrCharsF_esc (f : Nat) (cs : List Char) :
    parseStrCharsF (f + 1) ('\\' :: cs) =
      (match parseEscape cs with
       | none => none
       | some (d, cs2) =>
         match parseStrCharsF f cs2 with
         | some (l2, rest) => some (d :: l2, rest)
         | none => none) := rfl

theorem parseStrCharsF_plain (f : Nat) (c : Char) (cs : List Char)
    (h1 : ¬ c = '"') (h2 : ¬ c = '\\') (h3 : ¬ c.toNat < 32) :
    parseStrCharsF (f + 1) (c :: cs) =
      (match parseStrCharsF f cs with
       | some (l2, rest) => some (c :: l2, rest)
       | none => none) := by
  simp only [parseStrCharsF, if_neg h1, if_neg h2, if_neg h3]

theorem parseStrCharsF_escape : ∀ (l : List Char) (fuel : Nat) (rest : List Char),
    l.length + 1 ≤ fuel →
    parseStrCharsF fuel (escapeList l ++ '"' :: rest) = some (l, rest) := by
  intro l
  induction l with
  | nil =>
    intro fuel rest hf
    obtain ⟨f, rfl⟩ : ∃ f, fuel = f + 1 := ⟨fuel - 1, by omega⟩
    exact parseStrCharsF_quote f rest
  | cons c cs ih =>
    intro fuel rest hf
    obtain ⟨f, rfl⟩ : ∃ f, fuel = f + 1 := ⟨fuel - 1, by omega⟩
    have hfc : cs.length + 1 ≤ f := by
      simp only [List.length_cons] at hf
      omega
    rw [show escapeList (c :: cs) = escapeChar c ++ escapeList cs from rfl, List.append_assoc]
    by_cases h1 : c = '"'
    · subst h1
      rw [show escapeChar '"' = ['\\', '"'] from by decide]
      rw [show (['\\', '"'] : List Char) ++ (escapeList cs ++ '"' :: rest)
        = '\\' :: '"' :: (escapeList cs ++ '"' :: rest) from rfl]
      rw [parseStrCharsF_esc]
      rw [show parseEscape ('"' :: (escapeList cs ++ '"' :: rest))
        = some ('"', escapeList cs ++ '"' :: rest) from rfl]
      simp only [ih f rest hfc]
    · by_cases h2 : c = '\\'
      · subst h2
        rw [show escapeChar '\\' = ['\\', '\\'] from by decide]
        rw [show (['\\', '\\'] : List Char) ++ (escapeList cs ++ '"' :: rest)
          = '\\' :: '\\' :: (escapeList cs ++ '"' :: rest) from rfl]
        rw [parseStrCharsF_esc]
        rw [show parseEscape ('\\' :: (escapeList cs ++ '"' :: rest))
          = some ('\\', escapeList cs ++ '"' :: rest) from rfl]
        simp only [ih f rest hfc]
      · by_cases h3 : c.toNat = 8
        · rw [char_eq_ofNat h3]
          rw [show escapeChar (Char.ofNat 8) = ['\\', 'b'] from by decide]
          rw [show (['\\', 'b'] : List Char) ++ (escapeList cs ++ '"' :: rest)
            = '\\' :: 'b' :: (escapeList cs ++ '"' :: rest) from rfl]
          rw [parseStrCharsF_esc]
          rw [show parseEscape ('b' :: (escapeList cs ++ '"' :: rest))
            = some (Char.ofNat 8, escapeList cs ++ '"' :: rest) from rfl]
          simp only [ih f rest hfc]
        · by_cases h4 : c.toNat = 9
          · rw [char_eq_ofNat h4]
            rw [show escapeChar (Char.ofNat 9) = ['\\', 't'] from by decide]
            rw [show (['\\', 't'] : List Char) ++ (escapeList cs ++ '"' :: rest)
              = '\\' :: 't' :: (escapeList cs ++ '"' :: rest) from rfl]
            rw [parseStrCharsF_esc]
            rw [show parseEscape ('t' :: (escapeList cs ++ '"' :: rest))
              = some (Char.ofNat 9, escapeList cs ++ '"' :: rest) from rfl]
            simp only [ih f rest hfc]
          · by_cases h5 : c.toNat = 10
            · rw [char_eq_ofNat h5]
              rw [show escapeChar (Char.ofNat 10) = ['\\', 'n'] from by decide]
              rw [show (['\\', 'n'] : List Char) ++ (escapeList cs ++ '"' :: rest)
                = '\\' :: 'n' :: (escapeList cs ++ '"' :: rest) from rfl]
              rw [parseStrCharsF_esc]
              rw [show parseEscape ('n' :: (escapeList cs ++ '"' :: rest))
                = some (Char.ofNat 10, escapeList cs ++ '"' :: rest) from rfl]
              simp only [ih f rest hfc]
            · by_cases h6 : c.toNat = 12
              · rw [char_eq_ofNat h6]
                rw [show escapeChar (Char.ofNat 12) = ['\\', 'f'] from by decide]
                rw [show (['\\', 'f'] : List Char) ++ (escapeList cs ++ '"' :: rest)
                  = '\\' :: 'f' :: (escapeList cs ++ '"' :: rest) from rfl]
                rw [parseStrCharsF_esc]
                rw [show parseEscape ('f' :: (escapeList cs ++ '"' :: rest))
                  = some (Char.ofNat 12, escapeList cs ++ '"' :: rest) from rfl]
                simp only [ih f rest hfc]
              · by_cases h7 : c.toNat = 13
                · rw [char_eq_ofNat h7]
                  rw [show escapeChar (Char.ofNat 13) = ['\\', 'r'] from by decide]
                  rw [show (['\\', 'r'] : List Char) ++ (escapeList cs ++ '"' :: rest)
                    = '\\' :: 'r' :: (escapeList cs ++ '"' :: rest) from rfl]
                  rw [parseStrCharsF_esc]
                  rw [show parseEscape ('r' :: (escapeList cs ++ '"' :: rest))
                    = some (Char.ofNat 13, escapeList cs ++ '"' :: rest) from rfl]
                  simp only [ih f rest hfc]
                · by_cases h8 : 32 ≤ c.toNat ∧ c.toNat ≤ 126
                  · rw [show escapeChar c = [c] from by
                      unfold escapeChar
                      rw [if_neg h1, if_neg h2, if_neg h3, if_neg h4, if_neg h5, if_neg h6,
                        if_neg h7, if_pos h8]]
                    rw [show ([c] : List Char) ++ (escapeList cs ++ '"' :: rest)
                      = c :: (escapeList cs ++ '"' :: rest) from rfl]
                    rw [parseStrCharsF_plain f c _ h1 h2 (by omega)]
                    simp only [ih f rest hfc]
                  · by_cases h9 : c.toNat < 65536
                    · rw [show escapeChar c = hex4 c.toNat from by
                        unfold escapeChar
                        rw [if_neg h1, if_neg h2, if_neg h3, if_neg h4, if_neg h5, if_neg h6,
                          if_neg h7, if_neg h8, if_pos h9]]
                      rw [show hex4 c.toNat ++ (escapeList cs ++ '"' :: rest)
                        = '\\' :: 'u' :: (hexDigits4 c.toNat ++ (escapeList cs ++ '"' :: rest))
                        from by simp [hex4]]
                      rw [parseStrCharsF_esc]
                      rw [parseEscape_hex4 c.toNat _ h9 (by
                        rcases char_valid_nat c with hv | hv
                        · exact Or.inl hv
                        · exact Or.inr hv.1)]
                      simp only [ih f rest hfc, Char.ofNat_toNat]
                    · rw [show escapeChar c = hex4 (55296 + (c.toNat - 65536) / 1024)
                          ++ hex4 (56320 + (c.toNat - 65536) % 1024) from by
                        unfold escapeChar
                        rw [if_neg h1, if_neg h2, if_neg h3, if_neg h4, if_neg h5, if_neg h6,
                          if_neg h7, if_neg h8, if_neg h9]]
                      have hlt : c.toNat < 1114112 := by
                        rcases char_valid_nat c with hv | hv
                        · omega
                        · omega
                      rw [show (hex4 (55296 + (c.toNat - 65536) / 1024)
                          ++ hex4 (56320 + (c.toNat - 65536) % 1024))
                          ++ (escapeList cs ++ '"' :: rest)
                        = '\\' :: 'u' :: (hexDigits4 (55296 + (c.toNat - 65536) / 1024) ++
                          ('\\' :: 'u' :: (hexDigits4 (56320 + (c.toNat - 65536) % 1024) ++
                            (escapeList cs ++ '"' :: rest)))) from by simp [hex4]]
                      rw [parseStrCharsF_esc]
                      rw [parseEscape_surrogatePair c.toNat _ (by omega) hlt]
                      simp only [ih f rest hfc, Char.ofNat_toNat]

theorem escapeChar_length_pos (c : Char) : 1 ≤ (escapeChar c).length := by
  unfold escapeChar
  repeat' split
  all_goals simp [hex4, hexDigits4]

theorem escapeList_length_ge (l : List Char) : l.length ≤ (escapeList l).length := by
  induction l with
  | nil => simp [escapeList]
  | cons c cs ih =>
    rw [show escapeList (c :: cs) = escapeChar c ++ escapeList cs from rfl]
    simp only [List.length_append, List.length_cons]
    have := escapeChar_length_pos c
    omega

theorem parseStrChars_escape (l rest : List Char) :
    parseStrChars (escapeList l ++ '"' :: rest) = some (l, rest) := by
  unfold parseStrChars
  apply parseStrCharsF_escape
  have := escapeList_length_ge l
  simp only [List.length_append, List.length_cons]
  omega

/-! Shape lemmas about serializer output, used to drive the parser. -/

theorem natRepr_zero : natRepr 0 = ['0'] := by
  rw [natRepr, natDigits_def]
  simp
  rfl

theorem skipWs_cons_of_not {c : Char} (h : isWs c = false) (l : List Char) :
    skipWs (c :: l) = c :: l := by
  simp [skipWs, h]

theorem dumpsVal_head_ne (v : JValue) :
    ∃ c cs, dumpsVal v = c :: cs ∧ isWs c = false ∧ ¬ c = ']' ∧ ¬ c = Char.ofNat 125 := by
  cases v with
  | jnull => refine ⟨'n', _, rfl, ?_, ?_, ?_⟩ <;> decide
  | jbool b =>
    cases b with
    | true => refine ⟨'t', _, rfl, ?_, ?_, ?_⟩ <;> decide
    | false => refine ⟨'f', _, rfl, ?_, ?_, ?_⟩ <;> decide
  | jnum n =>
    rw [show dumpsVal (.jnum n) = intRepr n from rfl]
    unfold intRepr
    by_cases h : n < 0
    · rw [if_pos h]
      refine ⟨'-', _, rfl, ?_, ?_, ?_⟩ <;> decide
    · rw [if_neg h]
      by_cases h0 : n.toNat = 0
      · rw [h0, natRepr_zero]
        refine ⟨'0', _, rfl, ?_, ?_, ?_⟩ <;> decide
      · obtain ⟨d, ds, hd, h1, h9⟩ := natDigits_head n.toNat (by omega)
        obtain ⟨hdig, hws, htoNat, hn, ht, hf, hq, hm, hb, hbr, hrb, hbc, h0d⟩ :=
          digitChar_facts d h9
        exact ⟨digitChar d, ds.map digitChar, by simp [natRepr, hd], hws, hrb, hbc⟩
  | jstr s => refine ⟨'"', _, rfl, ?_, ?_, ?_⟩ <;> decide
  | jarr a =>
    cases a with
    | nil => refine ⟨'[', _, rfl, ?_, ?_, ?_⟩ <;> decide
    | cons v tl => refine ⟨'[', _, rfl, ?_, ?_, ?_⟩ <;> decide
  | jobj o =>
    cases o with
    | nil => refine ⟨Char.ofNat 123, _, rfl, ?_, ?_, ?_⟩ <;> decide
    | cons k v tl => refine ⟨Char.ofNat 123, _, rfl, ?_, ?_, ?_⟩ <;> decide

theorem skipWs_dumpsVal (v : JValue) (rest : List Char) :
    skipWs (dumpsVal v ++ rest) = dumpsVal v ++ rest := by
  obtain ⟨c, cs, hc, hws, -, -⟩ := dumpsVal_head_ne v
  rw [hc, List.cons_append]
  exact skipWs_cons_of_not hws _

theorem needV_pos (v : JValue) : 1 ≤ needV v := by
  cases v <;> simp [needV] <;> omega

theorem intRepr_length_pos (n : Int) : 1 ≤ (intRepr n).length := by
  unfold intRepr
  by_cases h : n < 0
  · rw [if_pos h]
    simp
  · rw [if_neg h]
    rw [natRepr]
    have := natDigits_ne_nil n.toNat
    cases hn : natDigits n.toNat with
    | nil => exact absurd hn this
    | cons d ds => simp [hn]

/-! Fuel bounds for the parser on serializer output. -/

mutual

theorem needV_le : (v : JValue) → needV v ≤ 2 * (dumpsVal v).length
  | .jnull => by simp [needV, dumpsVal]
  | .jbool b => by cases b <;> simp [needV, dumpsVal]
  | .jnum n => by
    have := intRepr_length_pos n
    rw [show dumpsVal (.jnum n) = intRepr n from rfl]
    simp only [needV]
    omega
  | .jstr s => by
    rw [show dumpsVal (.jstr s) = '"' :: (escapeList s.data ++ ['"']) from rfl]
    simp only [needV, List.length_cons]
    omega
  | .jarr .nil => by simp [needV, needA, dumpsVal]
  | .jarr (.cons v tl) => by
    have h1 := needV_le v
    have h2 := needA_le tl
    rw [show dumpsVal (.jarr (.cons v tl))
      = '[' :: ((dumpsVal v ++ dumpsElems tl) ++ [']']) from rfl]
    simp only [needV, needA, List.length_cons, List.length_append]
    omega
  | .jobj .nil => by simp [needV, needO, dumpsVal]
  | .jobj (.cons k v tl) => by
    have h1 := needV_le v
    have h2 := needO_le tl
    rw [show dumpsVal (.jobj (.cons k v tl)) = Char.ofNat 123 ::
      ((('"' :: (escapeList k.data ++ ('"' :: ':' :: ' ' :: dumpsVal v))) ++ dumpsMembers tl)
        ++ [Char.ofNat 125]) from rfl]
    simp only [needV, needO, List.length_cons, List.length_append]
    omega

theorem needA_le : (a : JArr) → needA a ≤ 2 * (dumpsElems a).length
  | .nil => by simp [needA, dumpsElems]
  | .cons v tl => by
    have h1 := needV_le v
    have h2 := needA_le tl
    rw [show dumpsElems (.cons v tl) = ',' :: ' ' :: (dumpsVal v ++ dumpsElems tl) from rfl]
    simp only [needA, List.length_cons, List.length_append]
    omega

theorem needO_le : (o : JObj) → needO o ≤ 2 * (dumpsMembers o).length
  | .nil => by simp [needO, dumpsMembers]
  | .cons k v tl => by
    have h1 := needV_le v
    have h2 := needO_le tl
    rw [show dumpsMembers (.cons k v tl) = ',' :: ' ' ::
      ('"' :: (escapeList k.data ++ ('"' :: ':' :: ' ' :: dumpsVal v)))
        ++ dumpsMembers tl from rfl]
    simp only [needO, List.length_cons, List.length_append]
    omega

end

/-! Main roundtrip: the parser inverts the serializer. -/

theorem skipWs_space (l : List Char) : skipWs (' ' :: l) = skipWs l := by
  simp [skipWs, isWs]

theorem noDigitHead_elems (tl : JArr) (rest : List Char) :
    noDigitHead (dumpsElems tl ++ ']' :: rest) = true := by
  cases tl <;> rfl

theorem noDigitHead_members (tl : JObj) (rest : List Char) :
    noDigitHead (dumpsMembers tl ++ Char.ofNat 125 :: rest) = true := by
  cases tl <;> rfl

theorem parse_dumps : ∀ fuel : Nat,
    (∀ (v : JValue) (rest : List Char), needV v ≤ fuel → noDigitHead rest = true →
        parseValue fuel (dumpsVal v ++ rest) = some (v, rest)) ∧
    (∀ (a : JArr) (rest : List Char), needA a + 1 ≤ fuel →
        parseArr fuel (dumpsArrBody a ++ ']' :: rest) = some (.jarr a, rest)) ∧
    (∀ (v : JValue) (tl : JArr) (rest : List Char), needA (.cons v tl) ≤ fuel →
        parseElemsRest fuel (dumpsVal v ++ (dumpsElems tl ++ ']' :: rest)) =
          some (JArr.cons v tl, rest)) ∧
    (∀ (o : JObj) (rest : List Char), needO o + 1 ≤ fuel →
        parseObjBody fuel (dumpsObjBody o ++ Char.ofNat 125 :: rest) = some (.jobj o, rest)) ∧
    (∀ (k : String) (v : JValue) (tl : JObj) (rest : List Char),
        needO (.cons k v tl) ≤ fuel →
        parseMembersRest fuel ('"' :: (escapeList k.data ++
          ('"' :: ':' :: ' ' :: (dumpsVal v ++ (dumpsMembers tl ++ Char.ofNat 125 :: rest))))) =
          some (JObj.cons k v tl, rest)) := by
  intro fuel
  induction fuel with
  | zero =>
    refine ⟨?_, ?_, ?_, ?_, ?_⟩
    · intro v rest hfuel hrest
      have := needV_pos v
      omega
    · intro a rest hfuel
      omega
    · intro v tl rest hfuel
      simp only [needA] at hfuel
      omega
    · intro o rest hfuel
      omega
    · intro k v tl rest hfuel
      simp only [needO] at hfuel
      omega
  | succ fuel ih =>
    obtain ⟨ihV, ihA, ihE, ihO, ihM⟩ := ih
    refine ⟨?_, ?_, ?_, ?_, ?_⟩
    · -- parseValue on each serialized value shape
      intro v rest hfuel hrest
      cases v with
      | jnull => rfl
      | jbool b => cases b <;> rfl
      | jnum n =>
        rw [show dumpsVal (.jnum n) = intRepr n from rfl]
        unfold intRepr
        by_cases hneg : n < 0
        · rw [if_pos hneg, List.cons_append]
          show (match parsePosNat (natRepr n.natAbs ++ rest) with
            | some (m, r) => some (JValue.jnum (-(m : Int)), r)
            | none => none) = some (.jnum n, rest)
          rw [parsePosNat_natRepr n.natAbs rest hrest]
          show some (JValue.jnum (-(n.natAbs : Int)), rest) = some (.jnum n, rest)
          rw [show (-(n.natAbs : Int)) = n from by omega]
        · rw [if_neg hneg]
          by_cases h0 : n.toNat = 0
          · rw [h0, natRepr_zero]
            rw [show (['0'] : List Char) ++ rest = '0' :: rest from rfl]
            show some (JValue.jnum ((0 : Nat) : Int), rest) = some (.jnum n, rest)
            rw [show ((0 : Nat) : Int) = n from by omega]
          · obtain ⟨d, ds, hd, h1, h9⟩ := natDigits_head n.toNat (by omega)
            obtain ⟨hdig, hws, htoNat, hn, ht, hf, hq, hm, hb, hbr, hrb, hbc, h0d⟩ :=
              digitChar_facts d h9
            have hrepr : natRepr n.toNat = digitChar d :: ds.map digitChar := by
              simp [natRepr, hd]
            rw [hrepr, List.cons_append]
            simp only [parseValue, if_neg hn, if_neg ht, if_neg hf, if_neg hq, if_neg hm,
              hdig]
            rw [if_pos trivial]
            rw [← List.cons_append, ← hrepr]
            rw [parsePosNat_natRepr n.toNat rest hrest]
            show some (JValue.jnum ((n.toNat : Nat) : Int), rest) = some (.jnum n, rest)
            rw [show ((n.toNat : Nat) : Int) = n from by omega]
      | jstr s =>
        rw [show dumpsVal (.jstr s) ++ rest
          = '"' :: (escapeList s.data ++ ('"' :: rest)) from by
            rw [show dumpsVal (.jstr s) = '"' :: (escapeList s.data ++ ['"']) from rfl]
            simp [List.append_assoc]]
        show (match parseStrChars (escapeList s.data ++ '"' :: rest) with
          | some (chars, r) => some (JValue.jstr (String.mk chars), r)
          | none => none) = some (.jstr s, rest)
        rw [parseStrChars_escape s.data rest]
      | jarr a =>
        rw [show dumpsVal (.jarr a) ++ rest = '[' :: (dumpsArrBody a ++ ']' :: rest) from by
          cases a <;> simp [dumpsVal, dumpsArrBody, List.append_assoc]]
        show parseArr fuel (skipWs (dumpsArrBody a ++ ']' :: rest)) = some (.jarr a, rest)
        have hA : needA a + 1 ≤ fuel := by
          simp only [needV] at hfuel
          omega
        cases a with
        | nil =>
          rw [show dumpsArrBody JArr.nil ++ ']' :: rest = ']' :: rest from rfl]
          rw [skipWs_cons_of_not (by decide) rest]
          exact ihA .nil rest hA
        | cons w tw =>
          rw [show dumpsArrBody (JArr.cons w tw) ++ ']' :: rest
            = dumpsVal w ++ (dumpsElems tw ++ ']' :: rest) from by
              rw [show dumpsArrBody (JArr.cons w tw) = dumpsVal w ++ dumpsElems tw from rfl,
                List.append_assoc]]
          rw [skipWs_dumpsVal]
          rw [show dumpsVal w ++ (dumpsElems tw ++ ']' :: rest)
            = dumpsArrBody (JArr.cons w tw) ++ ']' :: rest from by
              rw [show dumpsArrBody (JArr.cons w tw) = dumpsVal w ++ dumpsElems tw from rfl,
                List.append_assoc]]
          exact ihA (.cons w tw) rest hA
      | jobj o =>
        rw [show dumpsVal (.jobj o) ++ rest
          = Char.ofNat 123 :: (dumpsObjBody o ++ Char.ofNat 125 :: rest) from by
            cases o <;> simp [dumpsVal, dumpsObjBody, List.append_assoc]]
        show parseObjBody fuel (skipWs (dumpsObjBody o ++ Char.ofNat 125 :: rest))
          = some (.jobj o, rest)
        have hO : needO o + 1 ≤ fuel := by
          simp only [needV] at hfuel
          omega
        cases o with
        | nil =>
          rw [show dumpsObjBody JObj.nil ++ Char.ofNat 125 :: rest
            = Char.ofNat 125 :: rest from rfl]
          rw [skipWs_cons_of_not (by decide) rest]
          exact ihO .nil rest hO
        | cons k w tw =>
          rw [show dumpsObjBody (JObj.cons k w tw) ++ Char.ofNat 125 :: rest
            = '"' :: (escapeList k.data ++
              ('"' :: ':' :: ' ' :: (dumpsVal w ++
                (dumpsMembers tw ++ Char.ofNat 125 :: rest)))) from by
              simp [dumpsObjBody, List.append_assoc]]
          rw [skipWs_cons_of_not (by decide) _]
          rw [show ('"' : Char) :: (escapeList k.data ++
              ('"' :: ':' :: ' ' :: (dumpsVal w ++
                (dumpsMembers tw ++ Char.ofNat 125 :: rest))))
            = dumpsObjBody (JObj.cons k w tw) ++ Char.ofNat 125 :: rest from by
              simp [dumpsObjBody, List.append_assoc]]
          exact ihO (.cons k w tw) rest hO
    · -- parseArr after the opening bracket
      intro a rest hfuel
      cases a with
      | nil =>
        rw [show dumpsArrBody JArr.nil ++ ']' :: rest = ']' :: rest from rfl]
        rfl
      | cons v tl =>
        obtain ⟨c, cs, hc, hws, hne1, hne2⟩ := dumpsVal_head_ne v
        rw [show dumpsArrBody (JArr.cons v tl) ++ ']' :: rest
          = dumpsVal v ++ (dumpsElems tl ++ ']' :: rest) from by
            rw [show dumpsArrBody (JArr.cons v tl) = dumpsVal v ++ dumpsElems tl from rfl,
              List.append_assoc]]
        rw [hc, List.cons_append]
        simp only [parseArr, if_neg hne1]
        rw [← List.cons_append, ← hc]
        simp only [ihE v tl rest (by omega : needA (JArr.cons v tl) ≤ fuel)]
    · -- parseElemsRest on the first element and its tail
      intro v tl rest hfuel
      have hVfuel : needV v ≤ fuel := by
        simp only [needA] at hfuel
        omega
      have hV := ihV v (dumpsElems tl ++ ']' :: rest) hVfuel (noDigitHead_elems tl rest)
      simp only [parseElemsRest, hV]
      cases tl with
      | nil =>
        rw [show dumpsElems JArr.nil ++ ']' :: rest = ']' :: rest from rfl]
        rw [skipWs_cons_of_not (by decide) rest]
        rfl
      | cons w tw =>
        rw [show dumpsElems (JArr.cons w tw) ++ ']' :: rest
          = ',' :: (' ' :: (dumpsVal w ++ (dumpsElems tw ++ ']' :: rest))) from by
            rw [show dumpsElems (JArr.cons w tw)
              = ',' :: ' ' :: (dumpsVal w ++ dumpsElems tw) from rfl]
            simp [List.append_assoc]]
        rw [skipWs_cons_of_not (by decide) _]
        have hwfuel : needA (JArr.cons w tw) ≤ fuel := by
          simp only [needA] at hfuel ⊢
          have := needV_pos v
          omega
        simp only [skipWs_space, skipWs_dumpsVal, ihE w tw rest hwfuel]
    · -- parseObjBody after the opening brace
      intro o rest hfuel
      cases o with
      | nil =>
        rw [show dumpsObjBody JObj.nil ++ Char.ofNat 125 :: rest
          = Char.ofNat 125 :: rest from rfl]
        rfl
      | cons k v tl =>
        rw [show dumpsObjBody (JObj.cons k v tl) ++ Char.ofNat 125 :: rest
          = '"' :: (escapeList k.data ++
            ('"' :: ':' :: ' ' :: (dumpsVal v ++
              (dumpsMembers tl ++ Char.ofNat 125 :: rest)))) from by
            simp [dumpsObjBody, List.append_assoc]]
        simp only [parseObjBody, if_neg (by decide : ¬ ('"' : Char) = Char.ofNat 125)]
        simp only [ihM k v tl rest (by omega : needO (JObj.cons k v tl) ≤ fuel)]
    · -- parseMembersRest on the first member and its tail
      intro k v tl rest hfuel
      have hVfuel : needV v ≤ fuel := by
        simp only [needO] at hfuel
        omega
      have hV := ihV v (dumpsMembers tl ++ Char.ofNat 125 :: rest) hVfuel
        (noDigitHead_members tl rest)
      simp only [parseMembersRest]
      rw [parseStrChars_escape k.data (':' :: ' ' :: (dumpsVal v ++
        (dumpsMembers tl ++ Char.ofNat 125 :: rest)))]
      simp only [skipWs_cons_of_not (by decide : isWs ':' = false), skipWs_space,
        skipWs_dumpsVal, hV]
      cases tl with
      | nil =>
        rw [show dumpsMembers JObj.nil ++ Char.ofNat 125 :: rest
          = Char.ofNat 125 :: rest from rfl]
        rw [skipWs_cons_of_not (by decide) rest]
        rfl
      | cons k2 v2 t2 =>
        rw [show dumpsMembers (JObj.cons k2 v2 t2) ++ Char.ofNat 125 :: rest
          = ',' :: (' ' :: ('"' :: (escapeList k2.data ++
            ('"' :: ':' :: ' ' :: (dumpsVal v2 ++
              (dumpsMembers t2 ++ Char.ofNat 125 :: rest)))))) from by
            rw [show dumpsMembers (JObj.cons k2 v2 t2) = ',' :: ' ' ::
              ('"' :: (escapeList k2.data ++ ('"' :: ':' :: ' ' :: dumpsVal v2)))
                ++ dumpsMembers t2 from rfl]
            simp [List.append_assoc]]
        rw [skipWs_cons_of_not (by decide) _]
        have hkfuel : needO (JObj.cons k2 v2 t2) ≤ fuel := by
          simp only [needO] at hfuel ⊢
          have := needV_pos v
          omega
        show (match parseMembersRest fuel (skipWs (' ' :: ('"' :: (escapeList k2.data ++
            ('"' :: ':' :: ' ' :: (dumpsVal v2 ++
              (dumpsMembers t2 ++ Char.ofNat 125 :: rest))))))) with
          | some (tl2, rest2) => some (JObj.cons (String.mk k.data) v tl2, rest2)
          | none => none) = some (JObj.cons k v (JObj.cons k2 v2 t2), rest)
        rw [skipWs_space, skipWs_cons_of_not (by decide : isWs '"' = false) _,
          ihM k2 v2 t2 rest hkfuel]

/-- Toplevel statement of the roundtrip: decoding a serialized value
recovers the value. -/
theorem loads_dumps (v : JValue) : loads (dumps v) = some v := by
  unfold loads dumps
  rw [show (String.mk (dumpsVal v)).data = dumpsVal v from rfl]
  have h1 : skipWs (dumpsVal v) = dumpsVal v := by
    have h := skipWs_dumpsVal v []
    simpa using h
  rw [h1]
  have hfuel : needV v ≤ 2 * (dumpsVal v).length + 2 :=
    le_trans (needV_le v) (by omega)
  have h2 := (parse_dumps (2 * (dumpsVal v).length + 2)).1 v [] hfuel (by rfl)
  rw [List.append_nil] at h2
  rw [h2]
  rfl

/-- C8: a command built by cmd from a name and truthy arguments carries
the name under the execute key and the arguments under the arguments
key, and the serialized line decodes back to exactly the same message;
likewise any response object, including one whose desc field holds
non-ASCII text, roundtrips losslessly through json.dumps and
json.loads. -/
theorem C8_wire_roundtrip (name : String) (args : JValue) (o : JObj)
    (hargs : pyTruthy args = true) :
    (buildCmd name args .jnull).lookup "execute" = some (.jstr name) ∧
    (buildCmd name args .jnull).lookup "arguments" = some args ∧
    loads (dumps (.jobj (buildCmd name args .jnull))) =
      some (.jobj (buildCmd name args .jnull)) ∧
    loads (dumps (.jobj o)) = some (.jobj o) := by
  refine ⟨?_, ?_, loads_dumps _, loads_dumps _⟩
  · simp [buildCmd, JObj.lookup]
  · simp [buildCmd, hargs, idPart, show pyTruthy JValue.jnull = false from rfl,
      JObj.lookup]

/-- Witness for C8: a command with one argument, and an error response
whose desc field holds Cyrillic, accented and astral characters. -/
theorem C8_witness :
    (buildCmd "blockdev-add" (.jobj (.cons "driver" (.jstr "qcow2") .nil)) .jnull).lookup
        "execute" = some (.jstr "blockdev-add") ∧
    (buildCmd "blockdev-add" (.jobj (.cons "driver" (.jstr "qcow2") .nil)) .jnull).lookup
        "arguments" = some (.jobj (.cons "driver" (.jstr "qcow2") .nil)) ∧
    loads (dumps (.jobj (buildCmd "blockdev-add"
        (.jobj (.cons "driver" (.jstr "qcow2") .nil)) .jnull))) =
      some (.jobj (buildCmd "blockdev-add"
        (.jobj (.cons "driver" (.jstr "qcow2") .nil)) .jnull)) ∧
    loads (dumps (.jobj (.cons "error" (.jobj (.cons "class" (.jstr "GenericError")
        (.cons "desc" (.jstr "ошибка: départ 😀") .nil))) .nil))) =
      some (.jobj (.cons "error" (.jobj (.cons "class" (.jstr "GenericError")
        (.cons "desc" (.jstr "ошибка: départ 😀") .nil))) .nil)) :=
  C8_wire_roundtrip "blockdev-add" (.jobj (.cons "driver" (.jstr "qcow2") .nil))
    (.cons "error" (.jobj (.cons "class" (.jstr "GenericError")
      (.cons "desc" (.jstr "ошибка: départ 😀") .nil))) .nil)
    (by decide)

/-- C10: the message cmd writes to the wire carries the arguments key
exactly when the args parameter is truthy and the id key exactly when
the id parameter is truthy; an explicit empty dict is falsy, so an
empty-arguments command is sent without any arguments key and its wire
line decodes to an object that is not equal to one carrying an empty
arguments member. -/
theorem C10_truthy_keys (name : String) (args idv : JValue) (resp : JObj)
    (rest : List SockData) (snt : List String)
    (hre : resp.hasKey "event" = false) :
    (buildCmd name args idv).hasKey "arguments" = pyTruthy args ∧
    (buildCmd name args idv).hasKey "id" = pyTruthy idv ∧
    cmd name args idv .ok ⟨[], .line resp :: rest, snt⟩ =
      .ok (some resp, ⟨[], rest, snt ++ [dumps (.jobj (buildCmd name args idv))]⟩) ∧
    buildCmd name (.jobj .nil) .jnull = .cons "execute" (.jstr name) .nil ∧
    loads (dumps (.jobj (buildCmd name (.jobj .nil) .jnull))) =
      some (.jobj (.cons "execute" (.jstr name) .nil)) ∧
    (.jobj (.cons "execute" (.jstr name) .nil) : JValue) ≠
      .jobj (.cons "execute" (.jstr name) (.cons "arguments" (.jobj .nil) .nil)) := by
  refine ⟨?_, ?_, ?_, ?_, ?_, ?_⟩
  · by_cases h1 : pyTruthy args <;> by_cases h2 : pyTruthy idv <;>
      simp [buildCmd, idPart, JObj.hasKey, JObj.lookup, h1, h2]
  · by_cases h1 : pyTruthy args <;> by_cases h2 : pyTruthy idv <;>
      simp [buildCmd, idPart, JObj.hasKey, JObj.lookup, h1, h2]
  · unfold cmd
    have h := cmd_obj_ok (buildCmd name args idv) [] [] resp rest snt
      (by intro e he; cases he) hre
    simpa using h
  · simp [buildCmd, idPart, pyTruthy]
  · rw [show buildCmd name (.jobj .nil) .jnull = .cons "execute" (.jstr name) .nil from by
      simp [buildCmd, idPart, pyTruthy]]
    exact loads_dumps _
  · intro h
    simp at h

/-- Witness for C10 at an empty-arguments command. -/
theorem C10_witness :
    (buildCmd "stop" (.jobj .nil) .jnull).hasKey "arguments" = pyTruthy (.jobj .nil) ∧
    (buildCmd "stop" (.jobj .nil) .jnull).hasKey "id" = pyTruthy (.jnull : JValue) ∧
    cmd "stop" (.jobj .nil) .jnull .ok ⟨[], [.line (.cons "return" .jnull .nil)], []⟩ =
      .ok (some (.cons "return" .jnull .nil),
        ⟨[], [], [dumps (.jobj (buildCmd "stop" (.jobj .nil) .jnull))]⟩) ∧
    buildCmd "stop" (.jobj .nil) .jnull = .cons "execute" (.jstr "stop") .nil ∧
    loads (dumps (.jobj (buildCmd "stop" (.jobj .nil) .jnull))) =
      some (.jobj (.cons "execute" (.jstr "stop") .nil)) ∧
    (.jobj (.cons "execute" (.jstr "stop") .nil) : JValue) ≠
      .jobj (.cons "execute" (.jstr "stop") (.cons "arguments" (.jobj .nil) .nil)) :=
  C10_truthy_keys "stop" (.jobj .nil) .jnull (.cons "return" .jnull .nil) [] []
    (by decide)

end QMP
